import Mathlib

/-!
Verification of `git_sort.py` (benthaman/git-helpers).

The Python program is embedded shallowly:

* external services (the `git config` remote listing, `pygit2`'s
  `revparse_single`, the `git log` subprocess, the shelve cache file) are
  parameters of the embedded functions;
* Python dicts are modelled as insertion-ordered association lists
  `List (String × _)`;
* raised exceptions become `Except` errors, except for the `IndexError`
  raised on a blank input line, which no handler catches and which is
  modelled by a dedicated `MainOutcome.uncaught` constructor.
-/

namespace GitSort

/-- Python `str.strip()`: drop leading and trailing whitespace.
Used by `_rebuild_history` on each output line and by `__main__` in error
messages. -/
def strip (s : String) : String :=
  String.mk (((s.data.dropWhile Char.isWhitespace).reverse.dropWhile
    Char.isWhitespace).reverse)

/-- A resolved head, as produced by `_get_heads`: `(head name, sha1)`. -/
abbrev Head := String × String

/-- The history dict built by `_rebuild_history`:
head name ↦ commit hashes, oldest first. -/
abbrev HistoryMap := List (String × List String)

/-- The `head_names` tuple at the top of `git_sort.py`:
`(head name, [list of possible remote urls])`, in chain order. -/
def head_names : List (String × List String) := [
  ("linux.git", [
    "git://git.kernel.org/pub/scm/linux/kernel/git/torvalds/linux.git",
    "https://git.kernel.org/pub/scm/linux/kernel/git/torvalds/linux.git",
    "https://kernel.googlesource.com/pub/scm/linux/kernel/git/torvalds/linux.git"]),
  ("net", [
    "git://git.kernel.org/pub/scm/linux/kernel/git/davem/net.git",
    "https://git.kernel.org/pub/scm/linux/kernel/git/davem/net.git",
    "https://kernel.googlesource.com/pub/scm/linux/kernel/git/davem/net.git"]),
  ("net-next", [
    "git://git.kernel.org/pub/scm/linux/kernel/git/davem/net-next.git",
    "https://git.kernel.org/pub/scm/linux/kernel/git/davem/net-next.git",
    "https://kernel.googlesource.com/pub/scm/linux/kernel/git/davem/net-next.git"])]

/-- The inner `for url in urls` loop of `_get_heads` for one catalog entry.
`remotes` maps a configured remote url to that remote's name (the dict built
from `git config --get-regexp "^remote\..+\.url$"`); `revparse` models
`repo.revparse_single`, `none` standing for a raised `KeyError`.
The source's `continue` is the *last* statement of the loop body, so after a
url matches, the remaining urls of the same entry are still scanned and can
append further `(head_name, sha1)` pairs. -/
def collect_link (remotes : String → Option String)
    (revparse : String → Option String) (head_name : String) :
    List String → Except String (List Head)
  | [] => .ok []
  | url :: rest =>
    match remotes url with
    | none => collect_link remotes revparse head_name rest
    | some name =>
      match revparse (name ++ "/master") with
      | none => .error ("Could not read revision \"" ++ name ++
          "/master\", does that remote not have a master branch?")
      | some commit =>
        match collect_link remotes revparse head_name rest with
        | .error e => .error e
        | .ok hs => .ok ((head_name, commit) :: hs)

/-- The outer `for head_name, urls in head_names` loop of `_get_heads`. -/
def collect_heads (catalog : List (String × List String))
    (remotes : String → Option String) (revparse : String → Option String) :
    Except String (List Head) :=
  match catalog with
  | [] => .ok []
  | (head_name, urls) :: rest =>
    match collect_link remotes revparse head_name urls with
    | .error e => .error e
    | .ok hs =>
      match collect_heads rest remotes revparse with
      | .error e => .error e
      | .ok hs2 => .ok (hs ++ hs2)

/-- Model of `_get_heads`, with the catalog, the configured remotes and the revision
resolver as parameters.  After the collection loops, if the list is empty or
its first head's name differs from the catalog's first link name, the list is
discarded in favour of the single synthetic `("HEAD", sha1)` entry. -/
def get_heads (catalog : List (String × List String))
    (remotes : String → Option String) (revparse : String → Option String) :
    Except String (List Head) :=
  match collect_heads catalog remotes revparse with
  | .error e => .error e
  | .ok heads =>
    if heads = [] ∨ heads.head?.map Prod.fst ≠ catalog.head?.map Prod.fst then
      match revparse "HEAD" with
      | none => .error "KeyError: HEAD"
      | some commit => .ok [("HEAD", commit)]
    else .ok heads

/-- The loop of `_rebuild_history`.  `log rev processed` models the
`git log --topo-order --reverse --pretty=tformat:%H` subprocess invoked with
include revision `rev` and the accumulated exclusion revisions `processed`
(the source passes them as `^rev` arguments); `.error` stands for a non-zero
exit status and carries the subprocess output.  As in the source, a head name
already present in the accumulated dict is a fatal error, and each processed
head's revision is appended to the exclusions for all subsequent heads. -/
def rebuild_aux (log : String → List String → Except String (List String))
    (processed : List String) (history : HistoryMap) :
    List Head → Except String HistoryMap
  | [] => .ok history
  | (head_name, rev) :: rest =>
    if head_name ∈ history.map Prod.fst then
      .error ("head name \"" ++ head_name ++ "\" is not unique.")
    else
      match log rev processed with
      | .error e => .error ("git log exited with an error:\n" ++ e)
      | .ok out =>
        rebuild_aux log (processed ++ [rev])
          (history ++ [(head_name, out.map strip)]) rest

/-- Model of `_rebuild_history`. -/
def rebuild_history (log : String → List String → Except String (List String))
    (heads : List Head) : Except String HistoryMap :=
  rebuild_aux log [] [] heads

/-- The state of the shelve cache file: its `"heads"` and `"history"` keys,
`none` meaning the key is absent. -/
structure Cache where
  heads : Option (List Head)
  history : Option HistoryMap

/-- Model of `_get_history`, with the history builder as a parameter (the program
instantiates it with `rebuild_history`).  Returns the result, the cache state
after the call, and the number of builder invocations performed.  A `KeyError`
on reading an absent `"history"` key after a heads match is returned as an
error. -/
def get_history (rebuild : List Head → Except String HistoryMap)
    (cache : Cache) (heads : List Head) :
    Except String HistoryMap × Cache × Nat :=
  if cache.heads ≠ some heads then
    match rebuild heads with
    | .error e => (.error e, cache, 1)
    | .ok history => (.ok history, ⟨some heads, some history⟩, 1)
  else
    match cache.history with
    | none => (.error "KeyError: history", cache, 0)
    | some history => (.ok history, cache, 0)

/-- Python `dict.pop(key)` on an association list: the value at `key` and the
list with that entry removed, or `none` when the key is absent (the raised
`KeyError` is caught by the caller in `git_sort`). -/
def dict_pop {α : Type} (key : String) :
    List (String × α) → Option (α × List (String × α))
  | [] => none
  | (k, v) :: rest =>
    if k = key then some (v, rest)
    else
      match dict_pop key rest with
      | none => none
      | some (x, m) => some (x, (k, v) :: m)

/-- The inner `for commit in history[head_name]` loop of `git_sort`: walk one
link's commit list, popping each commit that is a key of the mapping and
yielding it.  Each emission is recorded as `(head_name, commit, payload)`;
the source yields `SortedEntry(head_name, payload)`, the commit id being the
popped key. -/
def consume_link {α : Type} (head_name : String) :
    List String → List (String × α) →
    List (String × String × α) × List (String × α)
  | [], mapping => ([], mapping)
  | commit :: rest, mapping =>
    match dict_pop commit mapping with
    | none => consume_link head_name rest mapping
    | some (v, mapping1) =>
      ((head_name, commit, v) :: (consume_link head_name rest mapping1).1,
        (consume_link head_name rest mapping1).2)

/-- The generator loop of `git_sort`, with the resolved heads and history as
parameters: walk heads in catalog order, and within each head its commit list
in stored order, destructively consuming the mapping.  Returns the emitted
sequence and the remaining (unconsumed) mapping.  `history` is the lookup in
the dict produced by `_get_history`, which holds exactly the processed head
names as keys. -/
def git_sort_loop {α : Type} (history : String → List String) :
    List Head → List (String × α) →
    List (String × String × α) × List (String × α)
  | [], mapping => ([], mapping)
  | (head_name, _) :: rest, mapping =>
    ((consume_link head_name (history head_name) mapping).1 ++
        (git_sort_loop history rest
          (consume_link head_name (history head_name) mapping).2).1,
      (git_sort_loop history rest
        (consume_link head_name (history head_name) mapping).2).2)

/-- The two exception kinds that `__main__`'s input loop catches from
`repo.revparse_single`: `ValueError` (token is not a valid revision spec) and
`KeyError` (valid spec, no such commit). -/
inductive PyKind
  | valueError
  | keyError

/-- How the input-reading loop of `__main__` can fail. `indexError` is the
uncaught exception from `line.strip().split(None, 1)[0]` on a line with no
token (recorded with the 1-based number of the offending line). -/
inductive LineFailure
  | parse (num : Nat) (line : String)
  | notFound (num : Nat) (line : String)
  | indexError (num : Nat)

/-- Model of `line.strip().split(None, 1)[0]`: the first maximal run of non-whitespace
characters, or `none` (Python: `IndexError`) when the line is empty or all
whitespace. -/
def first_token (line : String) : Option String :=
  match (line.data.dropWhile Char.isWhitespace).takeWhile
      (fun c => !c.isWhitespace) with
  | [] => none
  | c :: cs => some (String.mk (c :: cs))

/-- The `if h in lines: lines[h].append(line) else: lines[h] = [line]` step of
`__main__`. -/
def insert_line (mapping : List (String × List String)) (h : String)
    (line : String) : List (String × List String) :=
  if h ∈ mapping.map Prod.fst then
    mapping.map (fun p => if p.1 = h then (p.1, p.2 ++ [line]) else p)
  else mapping ++ [(h, [line])]

/-- The `for line in sys.stdin.readlines()` loop of `__main__`: number lines
from 1, extract each line's first token, resolve it (`revparse` models
`repo.revparse_single` followed by `str(commit.id)`), and group the original
lines by resolved commit id. -/
def build_mapping (revparse : String → Except PyKind String) :
    List String → Nat → List (String × List String) →
    Except LineFailure (List (String × List String))
  | [], _, mapping => .ok mapping
  | line :: rest, num, mapping =>
    match first_token line with
    | none => .error (.indexError (num + 1))
    | some tok =>
      match revparse tok with
      | .error .valueError => .error (.parse (num + 1) line)
      | .error .keyError => .error (.notFound (num + 1) line)
      | .ok h => build_mapping revparse rest (num + 1) (insert_line mapping h line)

/-- The stderr diagnostics printed by `__main__` for the two caught
exceptions (`print` appends a final newline). -/
def line_err_msg : PyKind → Nat → String → String
  | .valueError, num, line =>
    "Error: did not find a commit hash on line " ++ toString num ++ ":\n" ++
      strip line ++ "\n"
  | .keyError, num, line =>
    "Error: commit hash on line " ++ toString num ++
      " not found in the repository:\n" ++ strip line ++ "\n"

/-- Observable outcome of a default-mode run: the text written to stdout and
stderr and the exit status, or an abort by the uncaught `IndexError` raised
while reading the given 1-based input line. -/
inductive MainOutcome
  | exited (stdout : String) (stderr : String) (code : Nat)
  | uncaught (num : Nat)

/-- The `"".join(...)` over the emitted entries' line groups. -/
def sorted_output (em : List (String × String × List String)) : String :=
  String.join (em.map (fun e => String.join e.2.2))

/-- The `"".join(...)` over the line groups left in the mapping. -/
def leftover_output (rem : List (String × List String)) : String :=
  String.join (rem.map (fun p => String.join p.2))

/-- Default mode of `__main__` after argument parsing and repository
discovery, with the resolved heads and history as parameters (the program
obtains them through `_get_heads` and `_get_history` inside `git_sort`).
Note the source prints the sorted groups and then, when entries remain
unconsumed, prints the heading to stderr but the leftover line groups
themselves with a plain `print(..., end="")`, i.e. to stdout. -/
def main_default (revparse : String → Except PyKind String)
    (heads : List Head) (history : String → List String)
    (input : List String) : MainOutcome :=
  match build_mapping revparse input 0 [] with
  | .error (.indexError n) => .uncaught n
  | .error (.parse n line) => .exited "" (line_err_msg .valueError n line) 1
  | .error (.notFound n line) => .exited "" (line_err_msg .keyError n line) 1
  | .ok mapping =>
    match git_sort_loop history heads mapping with
    | (em, rem) =>
      if rem = [] then .exited (sorted_output em) "" 0
      else
        .exited (sorted_output em ++ leftover_output rem)
          "Error: the following entries were not found upstream:\n" 1

/-- The commits reachable from any revision in a list, given a reachability
assignment `reach` for single revisions. -/
def reachList (reach : String → Finset String) : List String → Finset String
  | [] => ∅
  | r :: rs => reach r ∪ reachList reach rs

/-- The backend contract for the `git log` enumeration (spec §6): invoked with
include revision `rev` and exclusion revisions `excl`, a successful run lists
exactly the commits reachable from `rev` and not reachable from any member of
`excl` (the order — oldest first — is irrelevant to the set-level claims).
The lines are compared after the `strip` the source applies to them. -/
def LogContract (log : String → List String → Except String (List String))
    (reach : String → Finset String) : Prop :=
  ∀ rev excl out, log rev excl = .ok out →
    (out.map strip).toFinset = reach rev \ reachList reach excl

/-- Intermediate specification relating a suffix of the history dict produced
by `rebuild_aux` to the heads still to process, given the exclusion revisions
accumulated so far. -/
def histSpec (reach : String → Finset String) :
    List String → HistoryMap → List Head → Prop
  | _, [], [] => True
  | processed, (n, l) :: tail, (hn, rev) :: hs =>
    n = hn ∧ l.toFinset = reach rev \ reachList reach processed ∧
      histSpec reach (processed ++ [rev]) tail hs
  | _, _, _ => False

/-- Union of the commit sets stored in a history dict. -/
def unionLists : HistoryMap → Finset String
  | [] => ∅
  | (_, l) :: t => l.toFinset ∪ unionLists t

/-- A concrete log backend over a finite commit universe, used to instantiate
`LogContract` in witnesses: it returns the members of the universe reachable
from the include revision and from no exclusion revision. -/
def mkLog (cs : List String) (reach : String → Finset String) :
    String → List String → Except String (List String) :=
  fun rev excl =>
    .ok (cs.filter (fun c => decide (c ∈ reach rev ∧ c ∉ reachList reach excl)))

/-- A line the input loop of `__main__` gets past without error: its first
token exists and resolves to a commit id. -/
def line_ok (revparse : String → Except PyKind String) (line : String) : Prop :=
  ∃ tok h, first_token line = some tok ∧ revparse tok = .ok h

/-- The `--dump-heads` branch of `__main__`: read the cached heads, resolve
the current heads, print both together with whether a rebuild would occur, and
exit 0.  The first component is what is printed (cached heads, current heads,
action line); the cache is only read. -/
def dump_heads (cache : Cache) (current : List Head) :
    (Option (List Head) × List Head × String) × Cache × Nat :=
  (⟨cache.heads, current,
    (if cache.heads = some current then "Will not" else "Will") ++
      " rebuild history"⟩, cache, 0)

/-- A remotes configuration (url ↦ remote name) in which two of the catalog's
urls for the "net" link are both configured, alongside linux.git. -/
def remotes_dup : String → Option String := fun url =>
  if url = "git://git.kernel.org/pub/scm/linux/kernel/git/torvalds/linux.git" then
    some "origin"
  else if url = "git://git.kernel.org/pub/scm/linux/kernel/git/davem/net.git" then
    some "net-git"
  else if url = "https://git.kernel.org/pub/scm/linux/kernel/git/davem/net.git" then
    some "net-https"
  else none

/-- Revision resolution matching `remotes_dup`. -/
def revparse_dup : String → Option String := fun rev =>
  if rev = "origin/master" then some "c0"
  else if rev = "net-git/master" then some "c1"
  else if rev = "net-https/master" then some "c2"
  else if rev = "HEAD" then some "c0"
  else none

/-- A three-commit universe for the history-builder witness: c1 is the root,
c2 and c3 are children of c1 on two branches. -/
def reach0 : String → Finset String := fun r =>
  if r = "c1" then {"c1"}
  else if r = "c2" then {"c1", "c2"}
  else if r = "c3" then {"c1", "c3"}
  else ∅

/-- The commit universe of `reach0`. -/
def univ0 : List String := ["c1", "c2", "c3"]

/-- Revision resolution for the end-to-end default-mode runs: token "a"
resolves to commit A, token "z" to commit Z, anything else is unknown. -/
def revparse_m : String → Except PyKind String := fun tok =>
  if tok = "a" then .ok "A"
  else if tok = "z" then .ok "Z"
  else .error .keyError

/-- A single-head history in which only commit A is upstream. -/
def history_m : String → List String := fun n =>
  if n = "HEAD" then ["A"] else []

/-- A history in which commit "x" (pathologically) appears under two links. -/
def history_dup : String → List String := fun n =>
  if n = "A" then ["x", "y"] else if n = "B" then ["x"] else []

/-- A remotes configuration with no configured remotes at all. -/
def remotes_none : String → Option String := fun _ => none

/-- Revision resolution that only knows the current checkout. -/
def revparse_head : String → Option String := fun rev =>
  if rev = "HEAD" then some "h0" else none

/-- A history builder stub used by cache witnesses. -/
def rebuild_w : List Head → Except String HistoryMap := fun _ => .ok [("A", ["x"])]

/-- A log backend whose every invocation exits non-zero. -/
def log_err : String → List String → Except String (List String) :=
  fun _ _ => .error "fatal: bad revision"

/-- Claim C10: dump-heads mode only reads the cache and never writes it: for
every cache state and freshly resolved head list, the cache after the
invocation is the one before it, and the exit status is 0, even when the
report says a rebuild would occur. -/
theorem dump_heads_preserves_cache (cache : Cache) (heads : List Head) :
    (dump_heads cache heads).2.1 = cache ∧ (dump_heads cache heads).2.2 = 0 :=
  ⟨rfl, rfl⟩

/-- Claim C2 (refuted): with both the git and the https kernel.org urls of the
"net" link configured as remotes, `_get_heads` appends one head per matching
url — the trailing `continue` in its inner loop does not skip the remaining
urls of the link — so the link "net" contributes two heads, not at most one. -/
theorem get_heads_duplicate_link :
    get_heads head_names remotes_dup revparse_dup
        = .ok [("linux.git", "c0"), ("net", "c1"), ("net", "c2")] ∧
    (([("linux.git", "c0"), ("net", "c1"), ("net", "c2")] : List Head).filter
        (fun p => p.1 == "net")).length = 2 :=
  ⟨rfl, rfl⟩

/-- Claim C4: `_get_history` rebuilds exactly when the cached head list is
absent or differs from the given one, in which case it stores the heads and
the rebuilt history; on a match it returns the cached history with the cache
untouched and zero builder invocations; and any successful resolution is
idempotent — repeating it on the resulting cache performs zero builder
invocations and returns the same history. -/
theorem get_history_cache_behavior
    (rebuild : List Head → Except String HistoryMap) (cache : Cache)
    (heads : List Head) :
    ((get_history rebuild cache heads).2.2 = 1 ↔ cache.heads ≠ some heads) ∧
    (∀ hist, cache.heads ≠ some heads → rebuild heads = .ok hist →
      get_history rebuild cache heads = (.ok hist, ⟨some heads, some hist⟩, 1)) ∧
    (∀ hist, cache.heads = some heads → cache.history = some hist →
      get_history rebuild cache heads = (.ok hist, cache, 0)) ∧
    (∀ hist, (get_history rebuild cache heads).1 = .ok hist →
      get_history rebuild (get_history rebuild cache heads).2.1 heads
        = (.ok hist, (get_history rebuild cache heads).2.1, 0)) := by
  by_cases h : cache.heads = some heads
  · cases hh : cache.history with
    | none => simp [get_history, h, hh]
    | some hist => simp [get_history, h, hh]
  · cases hr : rebuild heads with
    | error e => simp [get_history, h, hr]
    | ok hist => simp [get_history, h, hr]

/-- Claim C4, witnessed: on an empty cache a resolution invokes the builder
once and stores heads and history; resolving the same head list again returns
the cached history with zero builder invocations. -/
theorem get_history_cache_behavior_witness :
    get_history rebuild_w ⟨none, none⟩ [("A", "x")]
        = (.ok [("A", ["x"])], ⟨some [("A", "x")], some [("A", ["x"])]⟩, 1) ∧
    get_history rebuild_w ⟨some [("A", "x")], some [("A", ["x"])]⟩ [("A", "x")]
        = (.ok [("A", ["x"])], ⟨some [("A", "x")], some [("A", ["x"])]⟩, 0) :=
  ⟨(get_history_cache_behavior rebuild_w ⟨none, none⟩ [("A", "x")]).2.1
      [("A", ["x"])] (by simp) rfl,
    (get_history_cache_behavior rebuild_w
        ⟨some [("A", "x")], some [("A", ["x"])]⟩ [("A", "x")]).2.2.1
      [("A", ["x"])] rfl rfl⟩

/-- Claim C9: when the history rebuild fails (log subprocess error or
duplicate head name, both surfaced as `rebuild_history` errors),
`_get_history` raises before any store: the cache is returned unchanged, and
on a cache miss the error is propagated. -/
theorem get_history_error_preserves_cache
    (log : String → List String → Except String (List String))
    (cache : Cache) (heads : List Head) (e : String)
    (herr : rebuild_history log heads = .error e) :
    (get_history (rebuild_history log) cache heads).2.1 = cache ∧
    (cache.heads ≠ some heads →
      (get_history (rebuild_history log) cache heads).1 = .error e) := by
  by_cases h : cache.heads = some heads
  · cases hh : cache.history <;> simp [get_history, h, hh]
  · simp [get_history, h, herr]

/-- Claim C9, witnessed: a failing log backend leaves an empty cache empty
and surfaces the diagnostic. -/
theorem get_history_error_preserves_cache_witness :
    (get_history (rebuild_history log_err) ⟨none, none⟩ [("A", "c2")]).2.1
        = ⟨none, none⟩ ∧
    (get_history (rebuild_history log_err) ⟨none, none⟩ [("A", "c2")]).1
        = .error "git log exited with an error:\nfatal: bad revision" :=
  ⟨(get_history_error_preserves_cache log_err ⟨none, none⟩ [("A", "c2")]
      "git log exited with an error:\nfatal: bad revision" rfl).1,
    (get_history_error_preserves_cache log_err ⟨none, none⟩ [("A", "c2")]
      "git log exited with an error:\nfatal: bad revision" rfl).2 (by simp)⟩

/-- Claim C5: if the head list built from the configured remotes is empty, or
its first entry's name differs from the catalog's first link name,
`_get_heads` discards it and returns exactly the single synthetic
`("HEAD", current commit)` head; in every other case the built list is
returned as is. -/
theorem get_heads_fallback (catalog : List (String × List String))
    (remotes revparse : String → Option String) (heads : List Head)
    (hd : String)
    (hc : collect_heads catalog remotes revparse = .ok heads)
    (hh : revparse "HEAD" = some hd) :
    ((heads = [] ∨ heads.head?.map Prod.fst ≠ catalog.head?.map Prod.fst) →
      get_heads catalog remotes revparse = .ok [("HEAD", hd)]) ∧
    (heads ≠ [] → heads.head?.map Prod.fst = catalog.head?.map Prod.fst →
      get_heads catalog remotes revparse = .ok heads) := by
  constructor
  · intro hcond
    simp only [get_heads, hc]
    rw [if_pos hcond, hh]
  · intro h1 h2
    have hcond : ¬ (heads = [] ∨
        heads.head?.map Prod.fst ≠ catalog.head?.map Prod.fst) := by
      push_neg
      exact ⟨h1, h2⟩
    simp only [get_heads, hc]
    rw [if_neg hcond]

/-- Claim C5, witnessed: with no recognized remote configured, the resolver
returns the single synthetic head for the current checkout. -/
theorem get_heads_fallback_witness :
    get_heads head_names remotes_none revparse_head = .ok [("HEAD", "h0")] :=
  (get_heads_fallback head_names remotes_none revparse_head [] "h0" rfl rfl).1
    (Or.inl rfl)

/-- One successful step of the input loop. -/
theorem build_mapping_ok_cons (revparse : String → Except PyKind String)
    (line : String) (rest : List String) (num : Nat)
    (mapping : List (String × List String)) (tok h : String)
    (htok : first_token line = some tok) (hok : revparse tok = .ok h) :
    build_mapping revparse (line :: rest) num mapping
      = build_mapping revparse rest (num + 1) (insert_line mapping h line) := by
  simp [build_mapping, htok, hok]

/-- The input loop runs through a prefix of well-formed lines, only advancing
the line counter and the accumulated mapping. -/
theorem build_mapping_append_ok (revparse : String → Except PyKind String)
    (pre rest : List String) (num : Nat)
    (mapping : List (String × List String))
    (hpre : ∀ l ∈ pre, line_ok revparse l) :
    ∃ m, build_mapping revparse (pre ++ rest) num mapping
      = build_mapping revparse rest (num + pre.length) m := by
  induction pre generalizing num mapping with
  | nil => exact ⟨mapping, by simp⟩
  | cons l pre ih =>
    obtain ⟨tok, h, htok, hok⟩ := hpre l (List.mem_cons_self _ _)
    obtain ⟨m, hm⟩ := ih (num + 1) (insert_line mapping h l)
      (fun l' hl' => hpre l' (List.mem_cons_of_mem _ hl'))
    refine ⟨m, ?_⟩
    rw [List.cons_append, build_mapping_ok_cons revparse l (pre ++ rest) num
      mapping tok h htok hok, hm]
    congr 1
    simp [Nat.add_comm, Nat.add_assoc, Nat.add_left_comm]

/-- Claim C7: when the first failing input line is the k-th — its leading
token either raises `ValueError` (not a revision spec) or `KeyError` (no such
commit) — the program writes the corresponding diagnostic naming the 1-based
line number k to stderr, produces no stdout, and exits 1: it does not skip
the line and continue. -/
theorem main_reports_failing_line (revparse : String → Except PyKind String)
    (heads : List Head) (history : String → List String)
    (pre post : List String) (line tok : String) (e : PyKind)
    (hpre : ∀ l ∈ pre, line_ok revparse l)
    (htok : first_token line = some tok)
    (herr : revparse tok = .error e) :
    main_default revparse heads history (pre ++ line :: post)
      = .exited "" (line_err_msg e (pre.length + 1) line) 1 := by
  obtain ⟨m, hm⟩ := build_mapping_append_ok revparse pre (line :: post) 0 []
    hpre
  unfold main_default
  rw [hm]
  cases e with
  | valueError => simp [build_mapping, htok, herr]
  | keyError => simp [build_mapping, htok, herr]

/-- Claim C7, witnessed: the second line's token "q" resolves to no commit;
the run exits 1 with the diagnostic naming line 2 and an empty stdout. -/
theorem main_reports_failing_line_witness :
    main_default revparse_m [("HEAD", "A")] history_m ["a one\n", "q two\n"]
      = .exited ""
          "Error: commit hash on line 2 not found in the repository:\nq two\n"
          1 :=
  main_reports_failing_line revparse_m [("HEAD", "A")] history_m
    ["a one\n"] [] "q two\n" "q" PyKind.keyError
    (fun l hl => by
      rw [List.mem_singleton.mp hl]
      exact ⟨"a", "A", rfl, rfl⟩)
    rfl rfl

/-- Claim C8: an input line that is empty or all whitespace makes
`line.strip().split(None, 1)[0]` raise `IndexError`, which neither `except`
clause catches: the run aborts with an uncaught exception at that line
instead of producing either line-numbered diagnostic. -/
theorem main_uncaught_on_blank_line (revparse : String → Except PyKind String)
    (heads : List Head) (history : String → List String)
    (pre post : List String) (line : String)
    (hpre : ∀ l ∈ pre, line_ok revparse l)
    (hws : ∀ c ∈ line.data, c.isWhitespace) :
    main_default revparse heads history (pre ++ line :: post)
      = .uncaught (pre.length + 1) := by
  have hft : first_token line = none := by
    unfold first_token
    rw [List.dropWhile_eq_nil_iff.mpr hws]
    rfl
  obtain ⟨m, hm⟩ := build_mapping_append_ok revparse pre (line :: post) 0 []
    hpre
  unfold main_default
  rw [hm]
  simp [build_mapping, hft]

/-- Claim C8, witnessed: a whitespace-only second line aborts the run with
the uncaught `IndexError` at line 2. -/
theorem main_uncaught_on_blank_line_witness :
    main_default revparse_m [("HEAD", "A")] history_m ["a one\n", " \t\n"]
      = .uncaught 2 :=
  main_uncaught_on_blank_line revparse_m [("HEAD", "A")] history_m
    ["a one\n"] [] " \t\n"
    (fun l hl => by
      rw [List.mem_singleton.mp hl]
      exact ⟨"a", "A", rfl, rfl⟩)
    (by decide)

/-- Claim C1 (refuted): at a concrete input whose second commit is not
upstream of the single head, the run exits 1, stderr holds exactly the "not
found upstream" heading — the unresolved original line occurs nowhere in it —
and that line is instead printed to stdout after the sorted output. -/
theorem main_unresolved_stderr_counterexample :
    main_default revparse_m [("HEAD", "A")] history_m ["a one\n", "z two\n"]
        = .exited ("a one\n" ++ "z two\n")
            "Error: the following entries were not found upstream:\n" 1 ∧
    ¬ ("z two\n".data <:+:
        "Error: the following entries were not found upstream:\n".data) ∧
    ("z two\n".data <:+: ("a one\n" ++ "z two\n").data) :=
  ⟨rfl, by decide, by decide⟩

/-- Claim C1 (amended): after emission is exhausted, if the input mapping is
non-empty the program prints the heading to standard error, prints the
remaining original lines (in grouping order) to standard output after the
sorted output, and exits 1; if the mapping is empty it prints only the sorted
output and exits 0. -/
theorem main_unresolved_report (revparse : String → Except PyKind String)
    (heads : List Head) (history : String → List String) (input : List String)
    (mapping : List (String × List String))
    (hok : build_mapping revparse input 0 [] = .ok mapping) :
    ((git_sort_loop history heads mapping).2 ≠ [] →
      main_default revparse heads history input
        = .exited
            (sorted_output (git_sort_loop history heads mapping).1 ++
              leftover_output (git_sort_loop history heads mapping).2)
            "Error: the following entries were not found upstream:\n" 1) ∧
    ((git_sort_loop history heads mapping).2 = [] →
      main_default revparse heads history input
        = .exited (sorted_output (git_sort_loop history heads mapping).1)
            "" 0) := by
  unfold main_default
  rw [hok]
  cases hgl : git_sort_loop history heads mapping with
  | mk em rem =>
    by_cases h : rem = [] <;> simp [hgl, h]

/-- Claim C1 (amended), witnessed: the unresolved line is appended to stdout,
the heading goes to stderr, and the exit status is 1. -/
theorem main_unresolved_report_witness :
    main_default revparse_m [("HEAD", "A")] history_m ["a one\n", "z two\n"]
      = .exited ("a one\n" ++ "z two\n")
          "Error: the following entries were not found upstream:\n" 1 :=
  (main_unresolved_report revparse_m [("HEAD", "A")] history_m
      ["a one\n", "z two\n"] [("A", ["a one\n"]), ("Z", ["z two\n"])] rfl).1
    (by decide)

/-- Popping removes exactly the first entry with the popped key. -/
theorem dict_pop_fst {α : Type} (key : String) :
    ∀ (m : List (String × α)) (v : α) (m1 : List (String × α)),
      dict_pop key m = some (v, m1) →
      m1.map Prod.fst = (m.map Prod.fst).erase key ∧ key ∈ m.map Prod.fst := by
  intro m
  induction m with
  | nil => intro v m1 h; simp [dict_pop] at h
  | cons p rest ih =>
    intro v m1 h
    obtain ⟨k, w⟩ := p
    by_cases hk : k = key
    · subst hk
      simp [dict_pop] at h
      simp [h.2.symm, List.erase_cons]
    · rw [dict_pop] at h
      rw [if_neg hk] at h
      cases hp : dict_pop key rest with
      | none => rw [hp] at h; simp at h
      | some pr =>
        obtain ⟨x, m2⟩ := pr
        rw [hp] at h
        simp at h
        obtain ⟨hx, hm1⟩ := h
        obtain ⟨h1, h2⟩ := ih x m2 hp
        subst hm1
        constructor
        · simp [h1, List.erase_cons, hk]
        · exact List.mem_cons_of_mem _ h2

/-- Popping a key from a mapping with no duplicate keys yields a mapping with
no duplicate keys, from which the popped key is gone. -/
theorem dict_pop_keys {α : Type} (key : String) (m : List (String × α))
    (v : α) (m1 : List (String × α)) (h : dict_pop key m = some (v, m1))
    (hnd : (m.map Prod.fst).Nodup) :
    (m1.map Prod.fst).Nodup ∧ key ∈ m.map Prod.fst ∧
      key ∉ m1.map Prod.fst ∧
      ∀ k ∈ m1.map Prod.fst, k ∈ m.map Prod.fst := by
  obtain ⟨hfst, hmem⟩ := dict_pop_fst key m v m1 h
  rw [hfst]
  refine ⟨hnd.erase key, hmem, ?_, fun k hk => List.erase_subset _ _ hk⟩
  intro hcontra
  exact ((hnd.mem_erase_iff).mp hcontra).1 rfl

/-- Walking one link's commit list pops each mapped commit exactly once:
the emitted keys are distinct, come from the mapping, and are gone from the
remaining mapping, which keeps distinct keys drawn from the original. -/
theorem consume_link_spec {α : Type} (head_name : String) :
    ∀ (commits : List String) (mapping : List (String × α)),
      (mapping.map Prod.fst).Nodup →
      (((consume_link head_name commits mapping).1.map
          (fun e => e.2.1)).Nodup ∧
       ((consume_link head_name commits mapping).2.map Prod.fst).Nodup ∧
       (∀ k, k ∈ (consume_link head_name commits mapping).1.map
            (fun e => e.2.1) →
          k ∈ mapping.map Prod.fst ∧
            k ∉ (consume_link head_name commits mapping).2.map Prod.fst) ∧
       (∀ k, k ∈ (consume_link head_name commits mapping).2.map Prod.fst →
          k ∈ mapping.map Prod.fst)) := by
  intro commits
  induction commits with
  | nil =>
    intro mapping hnd
    exact ⟨by simp [consume_link], by simpa [consume_link] using hnd,
      by simp [consume_link], by simp [consume_link]⟩
  | cons c rest ih =>
    intro mapping hnd
    cases hp : dict_pop c mapping with
    | none =>
      simpa [consume_link, hp] using ih mapping hnd
    | some pr =>
      obtain ⟨v, m1⟩ := pr
      obtain ⟨hnd1, hcm, hcm1, hsub1⟩ := dict_pop_keys c mapping v m1 hp hnd
      obtain ⟨he, hr, hek, hrk⟩ := ih m1 hnd1
      refine ⟨?_, ?_, ?_, ?_⟩
      · simp only [consume_link, hp, List.map_cons, List.nodup_cons]
        exact ⟨fun hmem => hcm1 ((hek c hmem).1), he⟩
      · simpa [consume_link, hp] using hr
      · intro k hk
        simp only [consume_link, hp, List.map_cons, List.mem_cons] at hk
        rcases hk with hk | hk
        · subst hk
          refine ⟨hcm, ?_⟩
          simp only [consume_link, hp]
          intro hcontra
          exact hcm1 (hrk _ hcontra)
        · obtain ⟨h1, h2⟩ := hek k hk
          refine ⟨hsub1 _ h1, ?_⟩
          simpa [consume_link, hp] using h2
      · intro k hk
        simp only [consume_link, hp] at hk
        exact hsub1 _ (hrk _ hk)

/-- The generator loop as a whole has the same properties: distinct emitted
keys, all from the mapping and absent from the remainder. -/
theorem git_sort_loop_spec {α : Type} (history : String → List String) :
    ∀ (heads : List Head) (mapping : List (String × α)),
      (mapping.map Prod.fst).Nodup →
      (((git_sort_loop history heads mapping).1.map
          (fun e => e.2.1)).Nodup ∧
       ((git_sort_loop history heads mapping).2.map Prod.fst).Nodup ∧
       (∀ k, k ∈ (git_sort_loop history heads mapping).1.map
            (fun e => e.2.1) →
          k ∈ mapping.map Prod.fst ∧
            k ∉ (git_sort_loop history heads mapping).2.map Prod.fst) ∧
       (∀ k, k ∈ (git_sort_loop history heads mapping).2.map Prod.fst →
          k ∈ mapping.map Prod.fst)) := by
  intro heads
  induction heads with
  | nil =>
    intro mapping hnd
    exact ⟨by simp [git_sort_loop], by simpa [git_sort_loop] using hnd,
      by simp [git_sort_loop], by simp [git_sort_loop]⟩
  | cons hd rest ih =>
    intro mapping hnd
    obtain ⟨head_name, rev⟩ := hd
    obtain ⟨he1, hr1, hek1, hrk1⟩ :=
      consume_link_spec head_name (history head_name) mapping hnd
    obtain ⟨he2, hr2, hek2, hrk2⟩ :=
      ih (consume_link head_name (history head_name) mapping).2 hr1
    refine ⟨?_, ?_, ?_, ?_⟩
    · simp only [git_sort_loop, List.map_append, List.nodup_append]
      refine ⟨he1, he2, fun k hk hk2 => ?_⟩
      exact (hek1 k hk).2 ((hek2 k hk2).1)
    · simpa [git_sort_loop] using hr2
    · intro k hk
      simp only [git_sort_loop, List.map_append, List.mem_append] at hk
      rcases hk with hk | hk
      · obtain ⟨h1, h2⟩ := hek1 k hk
        refine ⟨h1, ?_⟩
        simp only [git_sort_loop]
        intro hcontra
        exact h2 (hrk2 _ hcontra)
      · obtain ⟨h1, h2⟩ := hek2 k hk
        refine ⟨hrk1 _ h1, ?_⟩
        simpa [git_sort_loop] using h2
    · intro k hk
      simp only [git_sort_loop] at hk
      exact hrk1 _ (hrk2 _ hk)

/-- Claim C6: for every input mapping (with the distinct keys a Python dict
guarantees), head list and history, each key of the mapping is emitted by the
generator at most once over the whole run, even when the same commit id
occurs in several links' histories: the emitted key sequence has no
duplicates. -/
theorem git_sort_at_most_once {α : Type} (history : String → List String)
    (heads : List Head) (mapping : List (String × α))
    (hnd : (mapping.map Prod.fst).Nodup) :
    ((git_sort_loop history heads mapping).1.map (fun e => e.2.1)).Nodup :=
  (git_sort_loop_spec history heads mapping hnd).1

/-- Claim C6, witnessed: with "x" listed under both links, the emission keys
are still duplicate-free ("x" is consumed under link "A" only). -/
theorem git_sort_at_most_once_witness :
    ((git_sort_loop history_dup [("A", "ta"), ("B", "tb")]
        [("x", ["lx\n"]), ("y", ["ly\n"])]).1.map (fun e => e.2.1)).Nodup :=
  git_sort_at_most_once history_dup [("A", "ta"), ("B", "tb")]
    [("x", ["lx\n"]), ("y", ["ly\n"])] (by decide)

/-- Reachability from a concatenation of revision lists. -/
theorem reachList_append (reach : String → Finset String) (a b : List String) :
    reachList reach (a ++ b) = reachList reach a ∪ reachList reach b := by
  induction a with
  | nil => simp [reachList]
  | cons r rs ih => simp [reachList, ih, Finset.union_assoc]

/-- A successful `rebuild_aux` run appends, for each head in order, a list
whose commit set is that head's reachable set minus everything reachable from
the accumulated exclusions. -/
theorem rebuild_aux_ok
    (log : String → List String → Except String (List String))
    (reach : String → Finset String) (hc : LogContract log reach) :
    ∀ (heads : List Head) (processed : List String) (history R : HistoryMap),
      rebuild_aux log processed history heads = .ok R →
      ∃ tail, R = history ++ tail ∧ histSpec reach processed tail heads := by
  intro heads
  induction heads with
  | nil =>
    intro processed history R h
    simp only [rebuild_aux, Except.ok.injEq] at h
    exact ⟨[], by simp [h], trivial⟩
  | cons hd rest ih =>
    intro processed history R h
    obtain ⟨head_name, rev⟩ := hd
    rw [rebuild_aux] at h
    by_cases hmem : head_name ∈ history.map Prod.fst
    · rw [if_pos hmem] at h
      simp at h
    · rw [if_neg hmem] at h
      cases hl : log rev processed with
      | error e =>
        rw [hl] at h
        simp at h
      | ok out =>
        rw [hl] at h
        obtain ⟨tail, htail, hspec⟩ := ih (processed ++ [rev])
          (history ++ [(head_name, out.map strip)]) R h
        refine ⟨(head_name, out.map strip) :: tail, by simp [htail], ?_⟩
        exact ⟨rfl, hc rev processed out hl, hspec⟩

/-- Every list in a `histSpec` tail avoids everything reachable from the
already-accumulated exclusion revisions. -/
theorem histSpec_disjoint_processed (reach : String → Finset String) :
    ∀ (tail : HistoryMap) (heads : List Head) (processed : List String),
      histSpec reach processed tail heads →
      ∀ p ∈ tail, Disjoint p.2.toFinset (reachList reach processed) := by
  intro tail
  induction tail with
  | nil =>
    intro heads processed _ p hp
    simp at hp
  | cons q tail ih =>
    intro heads processed hspec p hp
    obtain ⟨n, l⟩ := q
    cases heads with
    | nil => exact absurd hspec (by simp [histSpec])
    | cons hd hs =>
      obtain ⟨hn, rev⟩ := hd
      obtain ⟨hname, hset, hrest⟩ := hspec
      rcases List.mem_cons.mp hp with hp | hp
      · subst hp
        simp only [hset]
        exact Finset.sdiff_disjoint
      · have hd2 := ih hs (processed ++ [rev]) hrest p hp
        rw [reachList_append] at hd2
        exact hd2.mono_right Finset.subset_union_left

/-- The per-link commit sets of a `histSpec` tail are pairwise disjoint. -/
theorem histSpec_pairwise (reach : String → Finset String) :
    ∀ (tail : HistoryMap) (heads : List Head) (processed : List String),
      histSpec reach processed tail heads →
      tail.Pairwise (fun p q => Disjoint p.2.toFinset q.2.toFinset) := by
  intro tail
  induction tail with
  | nil =>
    intro heads processed _
    exact List.Pairwise.nil
  | cons q tail ih =>
    intro heads processed hspec
    obtain ⟨n, l⟩ := q
    cases heads with
    | nil => exact absurd hspec (by simp [histSpec])
    | cons hd hs =>
      obtain ⟨hn, rev⟩ := hd
      obtain ⟨hname, hset, hrest⟩ := hspec
      refine List.Pairwise.cons ?_ (ih hs (processed ++ [rev]) hrest)
      intro p hp
      have hd2 := histSpec_disjoint_processed reach tail hs (processed ++ [rev])
        hrest p hp
      rw [reachList_append] at hd2
      have hrev : Disjoint p.2.toFinset (reach rev) := by
        refine hd2.mono_right ?_
        simp only [reachList, Finset.union_empty]
        exact Finset.subset_union_right
      have hsub : l.toFinset ⊆ reach rev := by
        rw [hset]
        exact Finset.sdiff_subset
      exact hrev.symm.mono_left hsub

/-- Relative to the accumulated exclusions, the union of a `histSpec` tail is
the union of the reachable sets of the remaining heads. -/
theorem histSpec_union (reach : String → Finset String) :
    ∀ (tail : HistoryMap) (heads : List Head) (processed : List String),
      histSpec reach processed tail heads →
      reachList reach processed ∪ unionLists tail
        = reachList reach processed ∪ reachList reach (heads.map Prod.snd) := by
  intro tail
  induction tail with
  | nil =>
    intro heads processed hspec
    cases heads with
    | nil => simp [unionLists, reachList]
    | cons hd hs => exact absurd hspec (by simp [histSpec])
  | cons q tail ih =>
    intro heads processed hspec
    obtain ⟨n, l⟩ := q
    cases heads with
    | nil => exact absurd hspec (by simp [histSpec])
    | cons hd hs =>
      obtain ⟨hn, rev⟩ := hd
      obtain ⟨hname, hset, hrest⟩ := hspec
      have ihu := ih hs (processed ++ [rev]) hrest
      rw [reachList_append] at ihu
      simp only [reachList, Finset.union_empty] at ihu
      simp only [unionLists, List.map_cons, reachList, hset]
      rw [← Finset.union_assoc, Finset.union_sdiff_self_eq_union, ihu,
        Finset.union_assoc]

/-- Claim C3: assuming the log-enumeration backend contract, a successful
`_rebuild_history` run produces per-link commit lists that are pairwise
disjoint and whose union is exactly the set of commits reachable from the
union of all head commit ids. -/
theorem rebuild_history_partition
    (log : String → List String → Except String (List String))
    (reach : String → Finset String) (hc : LogContract log reach)
    (heads : List Head) (R : HistoryMap)
    (hok : rebuild_history log heads = .ok R) :
    R.Pairwise (fun p q => Disjoint p.2.toFinset q.2.toFinset) ∧
    unionLists R = reachList reach (heads.map Prod.snd) := by
  obtain ⟨tail, htail, hspec⟩ := rebuild_aux_ok log reach hc heads [] [] R hok
  simp only [List.nil_append] at htail
  rw [htail]
  refine ⟨histSpec_pairwise reach tail heads [] hspec, ?_⟩
  have hu := histSpec_union reach tail heads [] hspec
  simpa [reachList] using hu

/-- The backend `mkLog` satisfies the backend contract whenever `reach` stays inside the
commit universe and its members are strip-fixed. -/
theorem mkLog_contract (cs : List String) (reach : String → Finset String)
    (hu : ∀ r, reach r ⊆ cs.toFinset) (hsf : ∀ c ∈ cs, strip c = c) :
    LogContract (mkLog cs reach) reach := by
  intro rev excl out hout
  simp only [mkLog, Except.ok.injEq] at hout
  subst hout
  have hmap : (cs.filter
        (fun c => decide (c ∈ reach rev ∧ c ∉ reachList reach excl))).map strip
      = cs.filter
        (fun c => decide (c ∈ reach rev ∧ c ∉ reachList reach excl)) := by
    have h1 : (cs.filter
          (fun c => decide (c ∈ reach rev ∧ c ∉ reachList reach excl))).map strip
        = (cs.filter
          (fun c => decide (c ∈ reach rev ∧ c ∉ reachList reach excl))).map id :=
      List.map_congr_left (fun c hcf => hsf c (List.mem_of_mem_filter hcf))
    rw [h1, List.map_id]
  rw [hmap]
  ext c
  simp only [List.mem_toFinset, List.mem_filter, Finset.mem_sdiff,
    decide_eq_true_eq]
  constructor
  · exact fun h => h.2
  · intro h
    exact ⟨List.mem_toFinset.mp (hu rev h.1), h⟩

/-- Claim C3, witnessed: over a three-commit graph (c1 the root, c2 and c3
children of c1 on two branches) with heads A at c2 and B at c3, the rebuilt
history [A ↦ [c1, c2], B ↦ [c3]] has pairwise disjoint lists whose union is
everything reachable from c2 or c3. -/
theorem rebuild_history_partition_witness :
    ([("A", ["c1", "c2"]), ("B", ["c3"])] : HistoryMap).Pairwise
        (fun p q => Disjoint p.2.toFinset q.2.toFinset) ∧
    unionLists [("A", ["c1", "c2"]), ("B", ["c3"])]
      = reachList reach0 (([("A", "c2"), ("B", "c3")] : List Head).map
          Prod.snd) :=
  rebuild_history_partition (mkLog univ0 reach0) reach0
    (mkLog_contract univ0 reach0
      (fun r => by
        simp only [reach0]
        split_ifs <;> decide)
      (by decide))
    [("A", "c2"), ("B", "c3")] [("A", ["c1", "c2"]), ("B", ["c3"])] rfl

end GitSort
